import Mathlib

/-!
Verification development for the pocket-insight expense tracker.

The definitions below are a shallow embedding of the TypeScript sources:
`src/lib/calculations.ts` (pure aggregation functions),
`src/lib/storage.ts` (localStorage access, the Supabase storage adapter and
the one-shot migration routine) and the migration-related handlers of
`src/pages/Dashboard.tsx`.  Currency amounts (JS `number`) are modelled as
rationals; calendar dates are modelled as a month index (`ℤ`, counting
months from an arbitrary epoch, so `month / 12` is the year and
`month % 12` the month-of-year) together with a day-of-month, ordered
lexicographically exactly as JS `Date` comparison orders instants lying in
distinct days.
-/

namespace PocketInsight

/-- The closed category enumeration of `src/lib/types.ts`, in the key order
of the literal object in `getCategoryTotals` (`src/lib/calculations.ts`). -/
inductive Category where
  | food
  | travel
  | shopping
  | rent
  | entertainment
  | utilities
  | health
  | other
deriving DecidableEq, Repr

/-- The insertion/enumeration order of the 8 category keys in the object
literal of `getCategoryTotals`; JS `Object.keys` yields exactly this order. -/
def categoryOrder : List Category :=
  [.food, .travel, .shopping, .rent, .entertainment, .utilities, .health, .other]

/-- Index of a category in `categoryOrder`. -/
def catRank : Category → ℕ
  | .food => 0
  | .travel => 1
  | .shopping => 2
  | .rent => 3
  | .entertainment => 4
  | .utilities => 5
  | .health => 6
  | .other => 7

/-- The closed payment-method enumeration of `src/lib/types.ts`. -/
inductive PaymentMethod where
  | cash
  | card
  | upi
  | bank
deriving DecidableEq, Repr

/-- A calendar date: absolute month index and day of month. -/
structure CalDate where
  month : ℤ
  day : ℤ
deriving DecidableEq, Repr

/-- Date comparison, as JS compares `Date` values of distinct days:
lexicographic on (month, day). -/
def CalDate.le (a b : CalDate) : Prop :=
  a.month < b.month ∨ (a.month = b.month ∧ a.day ≤ b.day)

instance (a b : CalDate) : Decidable (CalDate.le a b) := by
  unfold CalDate.le; infer_instance

/-- Gregorian leap year test. -/
def isLeapYear (y : ℤ) : Bool :=
  (y % 4 == 0 && y % 100 != 0) || (y % 400 == 0)

/-- Number of days of the month with absolute index `m` (month-of-year
`m % 12`, with 0 = January), as date-fns `endOfMonth` computes it. -/
def daysInMonth (m : ℤ) : ℤ :=
  let y := m.fdiv 12
  let mo := m.emod 12
  if mo = 1 then (if isLeapYear y then 29 else 28)
  else if mo = 3 ∨ mo = 5 ∨ mo = 8 ∨ mo = 10 then 30
  else 31

/-- `startOfMonth` of a date in month `m`. -/
def startOfMonth (m : ℤ) : CalDate := ⟨m, 1⟩

/-- `endOfMonth` of a date in month `m` (last day of that month). -/
def endOfMonth (m : ℤ) : CalDate := ⟨m, daysInMonth m⟩

/-- A well-formed date: the day exists in its month. -/
def ValidDate (d : CalDate) : Prop := 1 ≤ d.day ∧ d.day ≤ daysInMonth d.month

instance (d : CalDate) : Decidable (ValidDate d) := by
  unfold ValidDate; infer_instance

/-- The Expense record of `src/lib/types.ts`. -/
structure Expense where
  id : String
  date : CalDate
  category : Category
  description : String
  amount : ℚ
  paymentMethod : PaymentMethod
  tag : Option String
  createdAt : String
deriving DecidableEq, Repr

/-- The MonthlyBudget record of `src/lib/types.ts`. -/
structure MonthlyBudget where
  month : String
  amount : ℚ
deriving DecidableEq, Repr

/-! ## Aggregation engine (`src/lib/calculations.ts`) -/

/-- `getTotalAmount`: `expenses.reduce((sum, e) => sum + e.amount, 0)`. -/
def getTotalAmount (expenses : List Expense) : ℚ :=
  expenses.foldl (fun sum e => sum + e.amount) 0

/-- `getPercentageChange(current, previous)`. -/
def getPercentageChange (current previous : ℚ) : ℚ :=
  if previous = 0 then (if current > 0 then 100 else 0)
  else ((current - previous) / previous) * 100

/-- The totals record built by `getCategoryTotals`, as a function on keys:
starts all-zero, then `totals[e.category] += e.amount` for each expense. -/
def categoryTotalsFun (expenses : List Expense) : Category → ℚ :=
  expenses.foldl (fun totals e c =>
    if c = e.category then totals c + e.amount else totals c) (fun _ => 0)

/-- `getCategoryTotals`: the totals record read out in key order. -/
def getCategoryTotals (expenses : List Expense) : List (Category × ℚ) :=
  categoryOrder.map (fun c => (c, categoryTotalsFun expenses c))

/-- One iteration of the `forEach` loop of `getTopCategory`: replace the
current leader only on a strictly greater total. -/
def topStep (t : Category → ℚ) (acc : Option Category × ℚ) (c : Category) :
    Option Category × ℚ :=
  if t c > acc.2 then (some c, t c) else acc

/-- `getTopCategory`: scan the totals in key order, keeping the first
category whose total strictly exceeds the running maximum (initially 0);
return `null` when no category ever exceeded 0. -/
def getTopCategory (expenses : List Expense) : Option (Category × ℚ) :=
  let t := categoryTotalsFun expenses
  let r := categoryOrder.foldl (topStep t) (none, 0)
  match r.1 with
  | some c => some (c, r.2)
  | none => none

/-- The test of the `filter` in `getMonthlyTotals` (and the period slices):
`expenseDate >= startOfMonth && expenseDate <= endOfMonth`. -/
def inMonth (m : ℤ) (e : Expense) : Bool :=
  decide (CalDate.le (startOfMonth m) e.date) &&
  decide (CalDate.le e.date (endOfMonth m))

/-- An entry of the `getMonthlyTotals` result.  The source carries a label
string `format(date, "MMM yyyy")`; we carry the month index it denotes. -/
structure MonthEntry where
  month : ℤ
  total : ℚ
deriving DecidableEq, Repr

/-- `getMonthlyTotals(expenses, monthsBack)`: the loop runs
`i = monthsBack-1` down to `0`, pushing the entry of the month `i` months
before `now`; so the entry at position `j` is for month
`now.month - (monthsBack - 1 - j)`. -/
def getMonthlyTotals (expenses : List Expense) (now : CalDate)
    (monthsBack : ℕ) : List MonthEntry :=
  (List.range monthsBack).map (fun j =>
    let m : ℤ := now.month - ((monthsBack - 1 - j : ℕ) : ℤ)
    { month := m, total := getTotalAmount (expenses.filter (inMonth m)) })

/-- `getAverageMonthlySpend`: mean of the strictly positive entries of the
12-month trend, 0 when there is none. -/
def getAverageMonthlySpend (expenses : List Expense) (now : CalDate) : ℚ :=
  let monthlyTotals := getMonthlyTotals expenses now 12
  let nonZeroMonths := monthlyTotals.filter (fun m => decide (m.total > 0))
  if nonZeroMonths.length = 0 then 0
  else (nonZeroMonths.foldl (fun sum m => sum + m.total) 0) / nonZeroMonths.length

/-! ## Local storage and migration (`src/lib/storage.ts`) -/

/-- An opaque error reported by the remote store (the `error` object of a
failed Supabase call). -/
structure StoreErr where
  msg : String
deriving DecidableEq, Repr

/-- The browser localStorage keys the app touches:
`expense-tracker-expenses`, `expense-tracker-budgets` and `migrated`.
`none` models an absent key; the list-valued items stand for the parsed
JSON the source reads back. -/
structure LocalStore where
  expensesItem : Option (List Expense)
  budgetsItem : Option (List MonthlyBudget)
  migratedItem : Option String
deriving DecidableEq, Repr

/-- JS truthiness of `localStorage.getItem` results: `null` and the empty
string are falsy, every other string truthy. -/
def jsTruthyItem : Option String → Bool
  | some s => s ≠ ""
  | none => false

namespace storage

/-- `storage.getExpenses`: parse the cached list, `[]` when absent. -/
def getExpenses (ls : LocalStore) : List Expense :=
  (ls.expensesItem).getD []

/-- `storage.getBudgets`: parse the cached list, `[]` when absent. -/
def getBudgets (ls : LocalStore) : List MonthlyBudget :=
  (ls.budgetsItem).getD []

end storage

/-- `hasLocalStorageData`: local cache non-empty and the `migrated` flag
absent (falsy). -/
def hasLocalStorageData (ls : LocalStore) : Bool :=
  let expenses := storage.getExpenses ls
  let budgets := storage.getBudgets ls
  let migrated := ls.migratedItem
  !(jsTruthyItem migrated) && (expenses.length > 0 || budgets.length > 0)

/-- Outcomes of the two bulk inserts of the migration routine, when they
are attempted: `some e` models the Supabase call resolving with `error: e`,
`none` a successful insert. -/
structure RemoteMigration where
  insertExpensesError : Option StoreErr
  insertBudgetsError : Option StoreErr
deriving DecidableEq, Repr

/-- Result value of `migrateLocalStorageToSupabase`. -/
inductive MigrationResult where
  | success (expensesCount budgetsCount : ℕ)
  | failure (error : StoreErr)
deriving DecidableEq, Repr

/-- The `try` body of `migrateLocalStorageToSupabase`: insert the cached
expenses when non-empty (throwing its error on failure), then the cached
budgets likewise, then clear both cache keys and set `migrated = "true"`. -/
def migrateBody (ls : LocalStore) (remote : RemoteMigration) :
    Except StoreErr (LocalStore × ℕ × ℕ) :=
  let localExpenses := storage.getExpenses ls
  let localBudgets := storage.getBudgets ls
  match (if localExpenses.length > 0 then remote.insertExpensesError else none) with
  | some e => .error e
  | none =>
    match (if localBudgets.length > 0 then remote.insertBudgetsError else none) with
    | some e => .error e
    | none =>
      .ok ({ expensesItem := none, budgetsItem := none, migratedItem := some "true" },
           localExpenses.length, localBudgets.length)

/-- `migrateLocalStorageToSupabase`: the body under its `catch` clause —
any thrown error becomes `{ success: false, error }` with localStorage left
as it was; success yields `{ success: true, expensesCount, budgetsCount }`
with the cache cleared and the flag set. -/
def migrateLocalStorageToSupabase (ls : LocalStore) (remote : RemoteMigration) :
    LocalStore × MigrationResult :=
  match migrateBody ls remote with
  | .ok (ls2, ec, bc) => (ls2, .success ec bc)
  | .error e => (ls, .failure e)

/-! ## Migration UI handlers (`src/pages/Dashboard.tsx`) -/

/-- The Dashboard state the migration dialog lives in. -/
structure DashboardUI where
  showMigrationDialog : Bool
deriving DecidableEq, Repr

/-- The `AlertDialogCancel` ("Start Fresh") handler:
`setShowMigrationDialog(false)` and nothing else. -/
def startFresh (_ui : DashboardUI) (ls : LocalStore) : DashboardUI × LocalStore :=
  ({ showMigrationDialog := false }, ls)

/-- The `useEffect` pending-migration check:
`if (user && hasLocalStorageData()) setShowMigrationDialog(true)`. -/
def migrationCheckTriggers (hasUser : Bool) (ls : LocalStore) : Bool :=
  hasUser && hasLocalStorageData ls

/-! ## Remote store adapter (`src/lib/storage.ts`, `supabaseStorage`) -/

/-- The row shape submitted by `supabaseStorage.addExpense`. -/
structure ExpenseInsertRow where
  user_id : String
  date : CalDate
  category : Category
  description : String
  amount : ℚ
  payment_method : PaymentMethod
  tag : Option String
deriving DecidableEq, Repr

/-- `Omit<Expense, "id" | "createdAt">`: the argument of `addExpense`. -/
structure NewExpense where
  date : CalDate
  category : Category
  description : String
  amount : ℚ
  paymentMethod : PaymentMethod
  tag : Option String
deriving DecidableEq, Repr

/-- The row `supabaseStorage.addExpense` passes to `insert`, built
unconditionally from its arguments. -/
def addExpenseRow (userId : String) (expense : NewExpense) : ExpenseInsertRow :=
  { user_id := userId
    date := expense.date
    category := expense.category
    description := expense.description
    amount := expense.amount
    payment_method := expense.paymentMethod
    tag := expense.tag }

/-- What `addExpense` submits to the remote store: `some row` means a row
reaches the store; `none` would mean the call was rejected client-side
before submission.  The source always submits. -/
def addExpenseSubmission (userId : String) (expense : NewExpense) :
    Option ExpenseInsertRow :=
  some (addExpenseRow userId expense)

/-- `supabaseStorage.addExpense` result given the remote outcome for the
submitted row: `if (error) throw error`. -/
def addExpenseResult (userId : String) (expense : NewExpense)
    (remote : ExpenseInsertRow → Option StoreErr) : Except StoreErr Unit :=
  match remote (addExpenseRow userId expense) with
  | some e => .error e
  | none => .ok ()

/-- Modelled from the spec: the record-model validity predicate of §3 that
§4.2/§7 say the adapter enforces before submission — positive amount and
non-empty description after trimming (category and payment method are
members of their enumerations by typing here).  `src/` contains no such
check; this definition exists only to state the claim. -/
def validNewExpense (e : NewExpense) : Bool :=
  decide (0 < e.amount) && (e.description.trim ≠ "")

/-- A persisted expense row, as `updateExpense` sees and rewrites it. -/
structure ExpenseRow where
  id : String
  user_id : String
  date : CalDate
  category : Category
  description : String
  amount : ℚ
  payment_method : PaymentMethod
  tag : Option String
  created_at : String
deriving DecidableEq, Repr

/-- `Partial<Expense>` restricted to the fields `updateExpense` reads;
`some v` models a supplied field, `none` an absent one. -/
structure ExpensePatch where
  date : Option CalDate
  category : Option Category
  description : Option String
  amount : Option ℚ
  paymentMethod : Option PaymentMethod
  tag : Option String
deriving DecidableEq, Repr

/-- The `updates` object `updateExpense` sends: a field is included for
`date`/`category`/`description`/`paymentMethod` only when the supplied
value is truthy (an empty supplied string is dropped — in this embedding
dates, categories and payment methods have no falsy values, so the empty
case arises for `description`), and for `amount`/`tag` whenever the field
is supplied (`!== undefined`). -/
structure ExpenseUpdates where
  date : Option CalDate
  category : Option Category
  description : Option String
  amount : Option ℚ
  payment_method : Option PaymentMethod
  tag : Option String
deriving DecidableEq, Repr

/-- Truthiness filter on a supplied string: `if (value)` drops `""`. -/
def truthyString : Option String → Option String
  | some s => if s = "" then none else some s
  | none => none

/-- Build the `updates` payload of `updateExpense` from the patch. -/
def updatesOf (p : ExpensePatch) : ExpenseUpdates :=
  { date := p.date
    category := p.category
    description := truthyString p.description
    amount := p.amount
    payment_method := p.paymentMethod
    tag := p.tag }

/-- Apply an `updates` payload to a stored row, as the store's `UPDATE`
does: included columns take the payload value, others keep theirs. -/
def applyUpdates (r : ExpenseRow) (u : ExpenseUpdates) : ExpenseRow :=
  { r with
    date := u.date.getD r.date
    category := u.category.getD r.category
    description := u.description.getD r.description
    amount := u.amount.getD r.amount
    payment_method := u.payment_method.getD r.payment_method
    tag := match u.tag with | some t => some t | none => r.tag }

/-- `supabaseStorage.updateExpense` on a table of rows: rewrite exactly the
rows matching `id` (`.eq("id", id)`) with the built payload. -/
def updateExpense (store : List ExpenseRow) (id : String) (p : ExpensePatch) :
    List ExpenseRow :=
  store.map (fun r => if r.id = id then applyUpdates r (updatesOf p) else r)

/-! ## Concrete sample data (used to instantiate the theorems below) -/

/-- A sample expense: 100 on food. -/
def ex1 : Expense :=
  { id := "e1", date := ⟨24300, 5⟩, category := .food, description := "lunch",
    amount := 100, paymentMethod := .cash, tag := none, createdAt := "t1" }

/-- A sample expense: 200 on food. -/
def ex2 : Expense :=
  { id := "e2", date := ⟨24300, 6⟩, category := .food, description := "dinner",
    amount := 200, paymentMethod := .card, tag := none, createdAt := "t2" }

/-- A sample expense: 300 on travel (ties food's 300 in `ex1 ++ ex2`). -/
def ex3 : Expense :=
  { id := "e3", date := ⟨24300, 7⟩, category := .travel, description := "taxi",
    amount := 300, paymentMethod := .upi, tag := none, createdAt := "t3" }

/-- A local cache holding 2 expenses and 1 budget, not yet migrated. -/
def mig_ls0 : LocalStore :=
  { expensesItem := some [ex1, ex2],
    budgetsItem := some [{ month := "2025-09", amount := 5000 }],
    migratedItem := none }

/-- Remote behaviour: expenses insert succeeds, budgets insert fails. -/
def mig_remote0 : RemoteMigration :=
  { insertExpensesError := none,
    insertBudgetsError := some ⟨"budget insert failed"⟩ }

/-- An invalid `addExpense` argument: non-positive amount and description
empty after trimming. -/
def badNewExpense : NewExpense :=
  { date := ⟨24300, 5⟩, category := .food, description := "  ",
    amount := -5, paymentMethod := .cash, tag := none }

/-- A stored expense row with description `"lunch"`. -/
def row1 : ExpenseRow :=
  { id := "e1", user_id := "u1", date := ⟨24300, 5⟩, category := .food,
    description := "lunch", amount := 100, payment_method := .cash,
    tag := none, created_at := "t1" }

/-- A patch supplying only `description`, with the empty string. -/
def patchEmptyDescription : ExpensePatch :=
  { date := none, category := none, description := some "",
    amount := none, paymentMethod := none, tag := none }

/-- A patch supplying description and amount only. -/
def patchDescAmount : ExpensePatch :=
  { date := none, category := none, description := some "brunch",
    amount := some 42, paymentMethod := none, tag := none }

/-- A reference "now" used by the monthly-trend witnesses. -/
def now0 : CalDate := ⟨24303, 15⟩

/-- An expense of 400 one month before `now0`. -/
def exM1 : Expense :=
  { id := "m1", date := ⟨24302, 10⟩, category := .food, description := "a",
    amount := 400, paymentMethod := .cash, tag := none, createdAt := "s1" }

/-- An expense of 600 three months before `now0`. -/
def exM3 : Expense :=
  { id := "m3", date := ⟨24300, 20⟩, category := .rent, description := "b",
    amount := 600, paymentMethod := .bank, tag := none, createdAt := "s2" }

/-- Sum of the amounts of a list of expenses. -/
def sumAmounts (es : List Expense) : ℚ := (es.map Expense.amount).sum

/-! ## Theorems -/

lemma foldl_add_amount (es : List Expense) (a : ℚ) :
    es.foldl (fun sum e => sum + e.amount) a = a + sumAmounts es := by
  induction es generalizing a with
  | nil => simp [sumAmounts]
  | cons e es ih => simp [sumAmounts, ih]; ring

lemma getTotalAmount_eq_sumAmounts (es : List Expense) :
    getTotalAmount es = sumAmounts es := by
  simpa using foldl_add_amount es 0

lemma categoryTotals_foldl (es : List Expense) (t0 : Category → ℚ) (c : Category) :
    (es.foldl (fun totals e c => if c = e.category then totals c + e.amount
      else totals c) t0) c
      = t0 c + sumAmounts (es.filter (fun e => decide (e.category = c))) := by
  induction es generalizing t0 with
  | nil => simp [sumAmounts]
  | cons e es ih =>
    simp only [List.foldl_cons]
    rw [ih]
    by_cases h : e.category = c
    · subst h
      simp [List.filter_cons, sumAmounts]
      ring
    · have h' : ¬(c = e.category) := fun hc => h hc.symm
      simp [List.filter_cons, h, h', sumAmounts]

lemma categoryTotalsFun_eq (es : List Expense) (c : Category) :
    categoryTotalsFun es c
      = sumAmounts (es.filter (fun e => decide (e.category = c))) := by
  simpa using categoryTotals_foldl es (fun _ => 0) c

lemma sum_map_add_cat (l : List Category) (f g : Category → ℚ) :
    (l.map (fun c => f c + g c)).sum = (l.map f).sum + (l.map g).sum := by
  induction l with
  | nil => simp
  | cons c l ih => simp [ih]; ring

lemma sum_single_category (x : Category) (a : ℚ) :
    (categoryOrder.map (fun c => if x = c then a else 0)).sum = a := by
  cases x <;> simp [categoryOrder]

lemma filter_category_nil (es : List Expense) (c : Category)
    (hc : ∀ e ∈ es, e.category ≠ c) :
    es.filter (fun e => decide (e.category = c)) = [] := by
  induction es with
  | nil => rfl
  | cons e es ih =>
    simp only [List.filter_cons, decide_eq_true_eq]
    rw [if_neg (hc e (by simp))]
    exact ih (fun x hx => hc x (by simp [hx]))

lemma sum_categoryTotals (es : List Expense) :
    (categoryOrder.map (fun c => categoryTotalsFun es c)).sum = getTotalAmount es := by
  rw [getTotalAmount_eq_sumAmounts]
  have key : ∀ es : List Expense,
      (categoryOrder.map (fun c =>
        sumAmounts (es.filter (fun e => decide (e.category = c))))).sum
        = sumAmounts es := by
    intro es
    induction es with
    | nil => simp [sumAmounts]
    | cons e es ih =>
      have hpt : ∀ c : Category,
          sumAmounts ((e :: es).filter (fun x => decide (x.category = c)))
            = (if e.category = c then e.amount else 0)
              + sumAmounts (es.filter (fun x => decide (x.category = c))) := by
        intro c
        by_cases h : e.category = c <;> simp [List.filter_cons, h, sumAmounts]
      calc (categoryOrder.map (fun c =>
              sumAmounts ((e :: es).filter (fun x => decide (x.category = c))))).sum
          = (categoryOrder.map (fun c =>
              (if e.category = c then e.amount else 0)
                + sumAmounts (es.filter (fun x => decide (x.category = c))))).sum := by
            congr 1
            exact List.map_congr_left (fun c _ => hpt c)
        _ = (categoryOrder.map (fun c => if e.category = c then e.amount else 0)).sum
              + (categoryOrder.map (fun c =>
                  sumAmounts (es.filter (fun x => decide (x.category = c))))).sum :=
            sum_map_add_cat _ _ _
        _ = e.amount + sumAmounts es := by rw [sum_single_category, ih]
        _ = sumAmounts (e :: es) := by simp [sumAmounts]
  calc (categoryOrder.map (fun c => categoryTotalsFun es c)).sum
      = (categoryOrder.map (fun c =>
          sumAmounts (es.filter (fun e => decide (e.category = c))))).sum := by
        congr 1
        exact List.map_congr_left (fun c _ => categoryTotalsFun_eq es c)
    _ = sumAmounts es := key es

/-- C2: `getCategoryTotals` returns exactly the 8 enumerated category keys
(each exactly once, in enumeration order), a category with no matching
expense is mapped to 0, and the values sum to `getTotalAmount`. -/
theorem spec_C2_categoryTotals (E : List Expense) :
    (getCategoryTotals E).map Prod.fst = categoryOrder ∧
    (∀ c : Category, c ∈ (getCategoryTotals E).map Prod.fst) ∧
    ((getCategoryTotals E).map Prod.fst).Nodup ∧
    ((getCategoryTotals E).map Prod.snd).sum = getTotalAmount E ∧
    (∀ c : Category, (∀ e ∈ E, e.category ≠ c) → categoryTotalsFun E c = 0) := by
  have hfst : (getCategoryTotals E).map Prod.fst = categoryOrder := by
    simp [getCategoryTotals, List.map_map, Function.comp_def]
  refine ⟨hfst, ?_, ?_, ?_, ?_⟩
  · intro c
    rw [hfst]
    cases c <;> simp [categoryOrder]
  · rw [hfst]
    decide
  · have hsnd : (getCategoryTotals E).map Prod.snd
        = categoryOrder.map (fun c => categoryTotalsFun E c) := by
      simp [getCategoryTotals, List.map_map, Function.comp_def]
    rw [hsnd, sum_categoryTotals]
  · intro c hc
    rw [categoryTotalsFun_eq, filter_category_nil E c hc]
    simp [sumAmounts]

/-- C2 witness: the theorem at a concrete expense list. -/
theorem spec_C2_categoryTotals_witness :
    (getCategoryTotals [ex1, ex3]).map Prod.fst = categoryOrder ∧
    (∀ c : Category, c ∈ (getCategoryTotals [ex1, ex3]).map Prod.fst) ∧
    ((getCategoryTotals [ex1, ex3]).map Prod.fst).Nodup ∧
    ((getCategoryTotals [ex1, ex3]).map Prod.snd).sum = getTotalAmount [ex1, ex3] ∧
    (∀ c : Category, (∀ e ∈ [ex1, ex3], e.category ≠ c) →
      categoryTotalsFun [ex1, ex3] c = 0) :=
  spec_C2_categoryTotals [ex1, ex3]

/-- C3: `getPercentageChange` returns 100 when `previous = 0 < current`,
0 when `previous = 0` and `current ≤ 0`, and
`(current - previous) / previous * 100` otherwise; in particular
`(0,0) ↦ 0`, `(100,0) ↦ 100`, `(50,100) ↦ -50`, `(150,100) ↦ 50`. -/
theorem spec_C3_percentChange (current previous : ℚ) :
    (previous = 0 → 0 < current → getPercentageChange current previous = 100) ∧
    (previous = 0 → current ≤ 0 → getPercentageChange current previous = 0) ∧
    (previous ≠ 0 →
      getPercentageChange current previous = (current - previous) / previous * 100) ∧
    getPercentageChange 0 0 = 0 ∧ getPercentageChange 100 0 = 100 ∧
    getPercentageChange 50 100 = -50 ∧ getPercentageChange 150 100 = 50 := by
  refine ⟨?_, ?_, ?_, by norm_num [getPercentageChange], by norm_num [getPercentageChange],
    by norm_num [getPercentageChange], by norm_num [getPercentageChange]⟩
  · intro h hc
    simp [getPercentageChange, h, hc]
  · intro h hc
    simp [getPercentageChange, h, not_lt.mpr hc]
  · intro h
    simp [getPercentageChange, h]

/-- C3 witness: the theorem at a concrete input. -/
theorem spec_C3_percentChange_witness :
    ((7 : ℚ) = 0 → 0 < (3 : ℚ) → getPercentageChange 3 7 = 100) ∧
    ((7 : ℚ) = 0 → (3 : ℚ) ≤ 0 → getPercentageChange 3 7 = 0) ∧
    ((7 : ℚ) ≠ 0 → getPercentageChange 3 7 = (3 - 7) / 7 * 100) ∧
    getPercentageChange 0 0 = 0 ∧ getPercentageChange 100 0 = 100 ∧
    getPercentageChange 50 100 = -50 ∧ getPercentageChange 150 100 = 50 :=
  spec_C3_percentChange 3 7

/-- C1: if the migration's bulk insert of expenses fails, or the expenses
step does not fail and the bulk insert of budgets fails, then the local
cache entries for expenses and budgets and the `migrated` flag are left
exactly as they were, and the routine reports failure carrying the
underlying error. -/
theorem spec_C1_migration_failure_preserves_cache (ls : LocalStore)
    (remote : RemoteMigration) (e : StoreErr)
    (hfail :
      ((storage.getExpenses ls).length > 0 ∧ remote.insertExpensesError = some e) ∨
      (¬((storage.getExpenses ls).length > 0 ∧ remote.insertExpensesError.isSome) ∧
        (storage.getBudgets ls).length > 0 ∧ remote.insertBudgetsError = some e)) :
    (migrateLocalStorageToSupabase ls remote).1.expensesItem = ls.expensesItem ∧
    (migrateLocalStorageToSupabase ls remote).1.budgetsItem = ls.budgetsItem ∧
    (migrateLocalStorageToSupabase ls remote).1.migratedItem = ls.migratedItem ∧
    (migrateLocalStorageToSupabase ls remote).2 = .failure e := by
  rcases hfail with ⟨hlen, herr⟩ | ⟨hnofirst, hblen, herr⟩
  · simp [migrateLocalStorageToSupabase, migrateBody, hlen, herr]
  · have hfirst : (if (storage.getExpenses ls).length > 0
        then remote.insertExpensesError else none) = none := by
      by_cases hlen : (storage.getExpenses ls).length > 0
      · simp only [hlen, if_true]
        cases h : remote.insertExpensesError with
        | none => rfl
        | some x => exact absurd ⟨hlen, by simp [h]⟩ hnofirst
      · simp [hlen]
    simp [migrateLocalStorageToSupabase, migrateBody, hfirst, hblen, herr]

/-- C1 witness: a cache of 2 expenses and 1 budget where the expenses
insert succeeds and the budgets insert fails. -/
theorem spec_C1_migration_failure_preserves_cache_witness :
    (migrateLocalStorageToSupabase mig_ls0 mig_remote0).1.expensesItem = mig_ls0.expensesItem ∧
    (migrateLocalStorageToSupabase mig_ls0 mig_remote0).1.budgetsItem = mig_ls0.budgetsItem ∧
    (migrateLocalStorageToSupabase mig_ls0 mig_remote0).1.migratedItem = mig_ls0.migratedItem ∧
    (migrateLocalStorageToSupabase mig_ls0 mig_remote0).2 = .failure ⟨"budget insert failed"⟩ :=
  spec_C1_migration_failure_preserves_cache mig_ls0 mig_remote0
    ⟨"budget insert failed"⟩ (Or.inr (by decide))

/-- C10: the migration routine always resolves with a result value — for
every local state and every remote behaviour it returns either
`success expensesCount budgetsCount` (with the counts of the cached lists)
or `failure e` for some error `e`; no input makes it throw. -/
theorem spec_C10_migration_total (ls : LocalStore) (remote : RemoteMigration) :
    (migrateLocalStorageToSupabase ls remote).2 =
      .success (storage.getExpenses ls).length (storage.getBudgets ls).length ∨
    ∃ e, (migrateLocalStorageToSupabase ls remote).2 = .failure e := by
  unfold migrateLocalStorageToSupabase migrateBody
  cases hfirst : (if (storage.getExpenses ls).length > 0
      then remote.insertExpensesError else none) with
  | some e => exact Or.inr ⟨e, by simp [hfirst]⟩
  | none =>
    cases hsecond : (if (storage.getBudgets ls).length > 0
        then remote.insertBudgetsError else none) with
    | some e => exact Or.inr ⟨e, by simp [hfirst, hsecond]⟩
    | none => exact Or.inl (by simp [hfirst, hsecond])

/-- C7 counterexample: with local data present and the flag unset,
declining the prompt ("Start Fresh") leaves the state unchanged — the
`migrated` flag is still absent and the pending-migration check triggers
again, contradicting "the check never re-triggers". -/
theorem spec_C7_counterexample :
    (startFresh ⟨true⟩ mig_ls0).2 = mig_ls0 ∧
    (startFresh ⟨true⟩ mig_ls0).2.migratedItem = none ∧
    migrationCheckTriggers true (startFresh ⟨true⟩ mig_ls0).2 = true := by
  refine ⟨rfl, rfl, ?_⟩
  decide

/-- C7 (amended): declining the migration prompt only closes the dialog;
it transfers no data and leaves the local cache untouched, but it does not
set the `migrated` completion flag, so whenever local data is present the
pending-migration check triggers again afterwards. -/
theorem spec_C7_decline_only_closes_dialog (ui : DashboardUI) (ls : LocalStore) :
    (startFresh ui ls).1.showMigrationDialog = false ∧
    (startFresh ui ls).2 = ls ∧
    (hasLocalStorageData ls = true →
      migrationCheckTriggers true (startFresh ui ls).2 = true) := by
  refine ⟨rfl, rfl, ?_⟩
  intro h
  simp [migrationCheckTriggers, startFresh, h]

/-- C7 witness: the amended theorem at a concrete state. -/
theorem spec_C7_decline_only_closes_dialog_witness :
    (startFresh ⟨false⟩ mig_ls0).1.showMigrationDialog = false ∧
    (startFresh ⟨false⟩ mig_ls0).2 = mig_ls0 ∧
    (hasLocalStorageData mig_ls0 = true →
      migrationCheckTriggers true (startFresh ⟨false⟩ mig_ls0).2 = true) :=
  spec_C7_decline_only_closes_dialog ⟨false⟩ mig_ls0

/-- C8 counterexample: an input with a negative amount and a description
that is empty after trimming is not rejected — `addExpense` submits it to
the remote store verbatim, so invalid data does reach the store. -/
theorem spec_C8_counterexample :
    validNewExpense badNewExpense = false ∧
    addExpenseSubmission "u1" badNewExpense = some (addExpenseRow "u1" badNewExpense) ∧
    (addExpenseRow "u1" badNewExpense).amount = -5 ∧
    (addExpenseRow "u1" badNewExpense).description = "  " := by
  refine ⟨?_, rfl, rfl, rfl⟩
  decide

/-- C8 (amended): `addExpense` performs no client-side validation — for
every input, valid or not, it submits a row carrying the given fields
verbatim, and its outcome is decided solely by the remote store's answer
for that row. -/
theorem spec_C8_no_client_validation (userId : String) (e : NewExpense) :
    addExpenseSubmission userId e = some (addExpenseRow userId e) ∧
    (addExpenseRow userId e).user_id = userId ∧
    (addExpenseRow userId e).date = e.date ∧
    (addExpenseRow userId e).category = e.category ∧
    (addExpenseRow userId e).description = e.description ∧
    (addExpenseRow userId e).amount = e.amount ∧
    (addExpenseRow userId e).payment_method = e.paymentMethod ∧
    (addExpenseRow userId e).tag = e.tag ∧
    (∀ remote : ExpenseInsertRow → Option StoreErr,
      addExpenseResult userId e remote = .ok () ↔
        remote (addExpenseRow userId e) = none) := by
  refine ⟨rfl, rfl, rfl, rfl, rfl, rfl, rfl, rfl, ?_⟩
  intro remote
  unfold addExpenseResult
  cases h : remote (addExpenseRow userId e) <;> simp

/-- C9 counterexample: supplying `description = ""` does not update the
field — the truthiness check drops it, so the stored row keeps its old
description instead of taking the supplied value. -/
theorem spec_C9_counterexample :
    patchEmptyDescription.description = some "" ∧
    updateExpense [row1] "e1" patchEmptyDescription = [row1] ∧
    row1.description = "lunch" := by
  refine ⟨rfl, ?_, rfl⟩
  decide

/-- C9 (amended): provided a supplied `description` is not the empty
string (the source drops falsy supplied values of the truthiness-checked
columns instead of writing them), `updateExpense` rewrites exactly the
rows matching `id`, setting exactly the supplied fields to the supplied
values and leaving every other field — and every other row — unchanged. -/
theorem spec_C9_update_exact_fields (store : List ExpenseRow) (id : String)
    (p : ExpensePatch) (hd : p.description ≠ some "") :
    List.Forall₂ (fun r r' : ExpenseRow =>
      (r.id ≠ id → r' = r) ∧
      (r.id = id →
        r'.id = r.id ∧ r'.user_id = r.user_id ∧ r'.created_at = r.created_at ∧
        (∀ v, p.date = some v → r'.date = v) ∧
        (p.date = none → r'.date = r.date) ∧
        (∀ v, p.category = some v → r'.category = v) ∧
        (p.category = none → r'.category = r.category) ∧
        (∀ v, p.description = some v → r'.description = v) ∧
        (p.description = none → r'.description = r.description) ∧
        (∀ v, p.amount = some v → r'.amount = v) ∧
        (p.amount = none → r'.amount = r.amount) ∧
        (∀ v, p.paymentMethod = some v → r'.payment_method = v) ∧
        (p.paymentMethod = none → r'.payment_method = r.payment_method) ∧
        (∀ v, p.tag = some v → r'.tag = some v) ∧
        (p.tag = none → r'.tag = r.tag)))
      store (updateExpense store id p) := by
  unfold updateExpense
  rw [List.forall₂_map_right_iff, List.forall₂_same]
  intro r _
  constructor
  · intro hne
    rw [if_neg hne]
  · intro heq
    rw [if_pos heq]
    refine ⟨rfl, rfl, rfl, ?_, ?_, ?_, ?_, ?_, ?_, ?_, ?_, ?_, ?_, ?_, ?_⟩
    · intro v hv; simp [applyUpdates, updatesOf, hv]
    · intro hv; simp [applyUpdates, updatesOf, hv]
    · intro v hv; simp [applyUpdates, updatesOf, hv]
    · intro hv; simp [applyUpdates, updatesOf, hv]
    · intro v hv
      have hv' : v ≠ "" := by
        intro h0
        exact hd (h0 ▸ hv)
      simp [applyUpdates, updatesOf, truthyString, hv, hv']
    · intro hv; simp [applyUpdates, updatesOf, truthyString, hv]
    · intro v hv; simp [applyUpdates, updatesOf, hv]
    · intro hv; simp [applyUpdates, updatesOf, hv]
    · intro v hv; simp [applyUpdates, updatesOf, hv]
    · intro hv; simp [applyUpdates, updatesOf, hv]
    · intro v hv; simp [applyUpdates, updatesOf, hv]
    · intro hv; simp [applyUpdates, updatesOf, hv]

/-- C9 witness: the amended theorem on a one-row table and a patch
supplying only description and amount. -/
theorem spec_C9_update_exact_fields_witness :
    List.Forall₂ (fun r r' : ExpenseRow =>
      (r.id ≠ "e1" → r' = r) ∧
      (r.id = "e1" →
        r'.id = r.id ∧ r'.user_id = r.user_id ∧ r'.created_at = r.created_at ∧
        (∀ v, patchDescAmount.date = some v → r'.date = v) ∧
        (patchDescAmount.date = none → r'.date = r.date) ∧
        (∀ v, patchDescAmount.category = some v → r'.category = v) ∧
        (patchDescAmount.category = none → r'.category = r.category) ∧
        (∀ v, patchDescAmount.description = some v → r'.description = v) ∧
        (patchDescAmount.description = none → r'.description = r.description) ∧
        (∀ v, patchDescAmount.amount = some v → r'.amount = v) ∧
        (patchDescAmount.amount = none → r'.amount = r.amount) ∧
        (∀ v, patchDescAmount.paymentMethod = some v → r'.payment_method = v) ∧
        (patchDescAmount.paymentMethod = none →
          r'.payment_method = r.payment_method) ∧
        (∀ v, patchDescAmount.tag = some v → r'.tag = some v) ∧
        (patchDescAmount.tag = none → r'.tag = r.tag)))
      [row1] (updateExpense [row1] "e1" patchDescAmount) :=
  spec_C9_update_exact_fields [row1] "e1" patchDescAmount (by decide)

lemma foldl_add_total (l : List MonthEntry) (a : ℚ) :
    l.foldl (fun sum m => sum + m.total) a = a + (l.map MonthEntry.total).sum := by
  induction l generalizing a with
  | nil => simp
  | cons m l ih => simp [ih]; ring

/-- C6: `getAverageMonthlySpend` is the arithmetic mean of the strictly
positive entries of the 12-month trend — 0 when no month is positive, and
otherwise their sum divided by their count (hence itself positive); in the
scenario with exactly two nonzero months of 400 and 600 it is 500. -/
theorem spec_C6_averageMonthlySpend (E : List Expense) (now : CalDate) :
    ((getMonthlyTotals E now 12).filter (fun m => decide (m.total > 0)) = [] →
      getAverageMonthlySpend E now = 0) ∧
    ((getMonthlyTotals E now 12).filter (fun m => decide (m.total > 0)) ≠ [] →
      getAverageMonthlySpend E now =
        (((getMonthlyTotals E now 12).filter
            (fun m => decide (m.total > 0))).map MonthEntry.total).sum /
          (((getMonthlyTotals E now 12).filter
            (fun m => decide (m.total > 0))).length : ℚ) ∧
      0 < getAverageMonthlySpend E now) ∧
    getAverageMonthlySpend [exM1, exM3] now0 = 500 := by
  refine ⟨?_, ?_, by
    norm_num [getAverageMonthlySpend, getMonthlyTotals, List.range_succ, inMonth,
      CalDate.le, startOfMonth, endOfMonth, daysInMonth, isLeapYear,
      exM1, exM3, now0, getTotalAmount, List.filter]⟩
  · intro h
    simp [getAverageMonthlySpend, h]
  · intro h
    have hlen : ((getMonthlyTotals E now 12).filter
        (fun m => decide (m.total > 0))).length ≠ 0 := by
      simpa [List.length_eq_zero] using h
    have havg : getAverageMonthlySpend E now =
        (((getMonthlyTotals E now 12).filter
            (fun m => decide (m.total > 0))).map MonthEntry.total).sum /
          (((getMonthlyTotals E now 12).filter
            (fun m => decide (m.total > 0))).length : ℚ) := by
      simp only [getAverageMonthlySpend, hlen, if_false, foldl_add_total, zero_add]
    refine ⟨havg, ?_⟩
    rw [havg]
    have hpos : 0 < (((getMonthlyTotals E now 12).filter
        (fun m => decide (m.total > 0))).map MonthEntry.total).sum := by
      apply List.sum_pos
      · intro x hx
        rcases List.mem_map.mp hx with ⟨m, hm, rfl⟩
        have := (List.mem_filter.mp hm).2
        simpa using this
      · intro hnil
        exact h (by simpa using (List.map_eq_nil_iff.mp hnil))
    have hlenq : (0 : ℚ) < (((getMonthlyTotals E now 12).filter
        (fun m => decide (m.total > 0))).length : ℚ) := by
      exact_mod_cast Nat.pos_of_ne_zero hlen
    exact div_pos hpos hlenq

/-- C6 witness: the theorem at the 400/600 two-month scenario. -/
theorem spec_C6_averageMonthlySpend_witness :
    ((getMonthlyTotals [exM1, exM3] now0 12).filter
        (fun m => decide (m.total > 0)) = [] →
      getAverageMonthlySpend [exM1, exM3] now0 = 0) ∧
    ((getMonthlyTotals [exM1, exM3] now0 12).filter
        (fun m => decide (m.total > 0)) ≠ [] →
      getAverageMonthlySpend [exM1, exM3] now0 =
        (((getMonthlyTotals [exM1, exM3] now0 12).filter
            (fun m => decide (m.total > 0))).map MonthEntry.total).sum /
          (((getMonthlyTotals [exM1, exM3] now0 12).filter
            (fun m => decide (m.total > 0))).length : ℚ) ∧
      0 < getAverageMonthlySpend [exM1, exM3] now0) ∧
    getAverageMonthlySpend [exM1, exM3] now0 = 500 :=
  spec_C6_averageMonthlySpend [exM1, exM3] now0

lemma inMonth_eq_decide (m : ℤ) (e : Expense) (hv : ValidDate e.date) :
    inMonth m e = decide (e.date.month = m) := by
  have hiff : (CalDate.le (startOfMonth m) e.date ∧
      CalDate.le e.date (endOfMonth m)) ↔ e.date.month = m := by
    constructor
    · rintro ⟨ha, hb⟩
      simp only [CalDate.le, startOfMonth, endOfMonth] at ha hb
      omega
    · intro h
      refine ⟨Or.inr ⟨h.symm, hv.1⟩, Or.inr ⟨h, ?_⟩⟩
      have h2 := hv.2
      rw [h] at h2
      exact h2
  unfold inMonth
  rw [← Bool.decide_and, decide_eq_decide]
  exact hiff

lemma filter_inMonth_eq (E : List Expense) (m : ℤ)
    (hvalid : ∀ e ∈ E, ValidDate e.date) :
    E.filter (inMonth m) = E.filter (fun e => decide (e.date.month = m)) :=
  List.filter_congr (fun e he => inMonth_eq_decide m e (hvalid e he))

lemma filter_month_nil (es : List Expense) (mm : ℤ)
    (hc : ∀ e ∈ es, e.date.month ≠ mm) :
    es.filter (fun e => decide (e.date.month = mm)) = [] := by
  induction es with
  | nil => rfl
  | cons e es ih =>
    simp only [List.filter_cons, decide_eq_true_eq]
    rw [if_neg (hc e (by simp))]
    exact ih (fun x hx => hc x (by simp [hx]))

lemma getMonthlyTotals_entry (E : List Expense) (now : CalDate) (monthsBack : ℕ)
    (hvalid : ∀ e ∈ E, ValidDate e.date) (j : ℕ) (hj : j < monthsBack) :
    (getMonthlyTotals E now monthsBack)[j]? =
      some { month := now.month - ((monthsBack - 1 - j : ℕ) : ℤ),
             total := sumAmounts (E.filter (fun e =>
               decide (e.date.month = now.month - ((monthsBack - 1 - j : ℕ) : ℤ)))) } := by
  unfold getMonthlyTotals
  rw [List.getElem?_map, List.getElem?_range hj, Option.map_some']
  simp only [getTotalAmount_eq_sumAmounts, filter_inMonth_eq E _ hvalid]

/-- C4: for `monthsBack ≥ 1` and well-formed expense dates,
`getMonthlyTotals` returns exactly `monthsBack` entries; the entry at
position `j` is for month `now.month - (monthsBack - 1 - j)` with total
the sum of the amounts of the expenses dated in that calendar month; the
months are strictly increasing (oldest first) and the last entry is the
month containing `now`; a month no expense falls in has total 0 (so
`E = []` yields all-zero totals). -/
theorem spec_C4_monthlyTotals (E : List Expense) (now : CalDate)
    (monthsBack : ℕ) (h1 : 1 ≤ monthsBack)
    (hvalid : ∀ e ∈ E, ValidDate e.date) :
    (getMonthlyTotals E now monthsBack).length = monthsBack ∧
    (∀ j, j < monthsBack →
      (getMonthlyTotals E now monthsBack)[j]? =
        some { month := now.month - ((monthsBack - 1 - j : ℕ) : ℤ),
               total := sumAmounts (E.filter (fun e =>
                 decide (e.date.month
                   = now.month - ((monthsBack - 1 - j : ℕ) : ℤ)))) }) ∧
    (∀ i j, i < j → j < monthsBack →
      ∀ mi mj, (getMonthlyTotals E now monthsBack)[i]? = some mi →
        (getMonthlyTotals E now monthsBack)[j]? = some mj →
        mi.month < mj.month) ∧
    ((getMonthlyTotals E now monthsBack)[monthsBack - 1]?).map MonthEntry.month
      = some now.month ∧
    (∀ m ∈ getMonthlyTotals E now monthsBack,
      (∀ e ∈ E, e.date.month ≠ m.month) → m.total = 0) := by
  refine ⟨by simp [getMonthlyTotals], getMonthlyTotals_entry E now monthsBack hvalid,
    ?_, ?_, ?_⟩
  · intro i j hij hj mi mj hmi hmj
    rw [getMonthlyTotals_entry E now monthsBack hvalid i (lt_trans hij hj)] at hmi
    rw [getMonthlyTotals_entry E now monthsBack hvalid j hj] at hmj
    have h1' := Option.some.inj hmi
    have h2' := Option.some.inj hmj
    have : mi.month = now.month - ((monthsBack - 1 - i : ℕ) : ℤ) := by
      rw [← h1']
    have h4 : mj.month = now.month - ((monthsBack - 1 - j : ℕ) : ℤ) := by
      rw [← h2']
    rw [this, h4]
    omega
  · rw [getMonthlyTotals_entry E now monthsBack hvalid (monthsBack - 1)
      (by omega)]
    rw [Option.map_some']
    congr 1
    dsimp only
    omega
  · intro m hm hnone
    rcases List.mem_iff_getElem?.mp hm with ⟨j, hj⟩
    have hjlt : j < monthsBack := by
      by_contra hge
      rw [List.getElem?_eq_none] at hj
      · exact Option.noConfusion hj
      · simpa [getMonthlyTotals] using Nat.le_of_not_lt hge
    rw [getMonthlyTotals_entry E now monthsBack hvalid j hjlt] at hj
    have hmeq := Option.some.inj hj
    have hmonth : m.month = now.month - ((monthsBack - 1 - j : ℕ) : ℤ) := by
      rw [← hmeq]
    have htot : m.total = sumAmounts (E.filter (fun e =>
        decide (e.date.month = now.month - ((monthsBack - 1 - j : ℕ) : ℤ)))) := by
      rw [← hmeq]
    rw [htot, filter_month_nil]
    · rfl
    · intro e he
      rw [← hmonth]
      exact hnone e he

/-- C4 witness: the theorem at the two-expense sample, `monthsBack = 12`. -/
theorem spec_C4_monthlyTotals_witness :
    (getMonthlyTotals [exM1, exM3] now0 12).length = 12 ∧
    (∀ j, j < 12 →
      (getMonthlyTotals [exM1, exM3] now0 12)[j]? =
        some { month := now0.month - ((12 - 1 - j : ℕ) : ℤ),
               total := sumAmounts ([exM1, exM3].filter (fun e =>
                 decide (e.date.month
                   = now0.month - ((12 - 1 - j : ℕ) : ℤ)))) }) ∧
    (∀ i j, i < j → j < 12 →
      ∀ mi mj, (getMonthlyTotals [exM1, exM3] now0 12)[i]? = some mi →
        (getMonthlyTotals [exM1, exM3] now0 12)[j]? = some mj →
        mi.month < mj.month) ∧
    ((getMonthlyTotals [exM1, exM3] now0 12)[12 - 1]?).map MonthEntry.month
      = some now0.month ∧
    (∀ m ∈ getMonthlyTotals [exM1, exM3] now0 12,
      (∀ e ∈ [exM1, exM3], e.date.month ≠ m.month) → m.total = 0) :=
  spec_C4_monthlyTotals [exM1, exM3] now0 12 (by decide) (by decide)

lemma topFold_isSome (t : Category → ℚ) (l : List Category)
    (acc : Option Category × ℚ) (x : Category) (h : acc.1 = some x) :
    ∃ y, (l.foldl (topStep t) acc).1 = some y := by
  induction l generalizing acc x with
  | nil => exact ⟨x, h⟩
  | cons c l ih =>
    simp only [List.foldl_cons]
    by_cases hc : t c > acc.2
    · rw [show topStep t acc c = (some c, t c) from if_pos hc]
      exact ih (some c, t c) c rfl
    · rw [show topStep t acc c = acc from if_neg hc]
      exact ih acc x h

lemma topFold_none_iff (t : Category → ℚ) (l : List Category)
    (acc : Option Category × ℚ) :
    (l.foldl (topStep t) acc).1 = none ↔
      acc.1 = none ∧ ∀ c ∈ l, t c ≤ acc.2 := by
  induction l generalizing acc with
  | nil => simp
  | cons c l ih =>
    simp only [List.foldl_cons]
    by_cases hc : t c > acc.2
    · rw [show topStep t acc c = (some c, t c) from if_pos hc]
      constructor
      · intro hres
        rcases topFold_isSome t l (some c, t c) c rfl with ⟨y, hy⟩
        rw [hy] at hres
        exact Option.noConfusion hres
      · rintro ⟨_, hall⟩
        exact absurd hc (not_lt.mpr (hall c (List.mem_cons_self c l)))
    · rw [show topStep t acc c = acc from if_neg hc, ih]
      constructor
      · rintro ⟨h1, h2⟩
        refine ⟨h1, ?_⟩
        intro x hx
        rcases List.mem_cons.mp hx with rfl | hx'
        · exact not_lt.mp hc
        · exact h2 x hx'
      · rintro ⟨h1, h2⟩
        exact ⟨h1, fun x hx => h2 x (List.mem_cons_of_mem c hx)⟩

lemma topFold_some (t : Category → ℚ) (l : List Category)
    (acc : Option Category × ℚ) (c : Category)
    (h : (l.foldl (topStep t) acc).1 = some c) :
    (acc.1 = some c ∧ (∀ x ∈ l, t x ≤ acc.2) ∧
      (l.foldl (topStep t) acc).2 = acc.2) ∨
    (∃ l1 l2, l = l1 ++ c :: l2 ∧ acc.2 < t c ∧ (∀ x ∈ l1, t x < t c) ∧
      (∀ x ∈ l2, t x ≤ t c) ∧ (l.foldl (topStep t) acc).2 = t c) := by
  induction l generalizing acc with
  | nil =>
    exact Or.inl ⟨h, by simp, rfl⟩
  | cons x l ih =>
    simp only [List.foldl_cons] at h ⊢
    by_cases hx : t x > acc.2
    · rw [show topStep t acc x = (some x, t x) from if_pos hx] at h ⊢
      rcases ih (some x, t x) h with ⟨hsome, hall, hsnd⟩ | ⟨l1, l2, hdec, hlt, he, hl2, hsnd⟩
      · have hxc : x = c := Option.some.inj hsome
        subst hxc
        refine Or.inr ⟨[], l, by simp, hx, by simp, ?_, ?_⟩
        · intro y hy
          exact hall y hy
        · exact hsnd
      · refine Or.inr ⟨x :: l1, l2, by rw [hdec]; rfl, lt_trans hx hlt, ?_, hl2, hsnd⟩
        intro y hy
        rcases List.mem_cons.mp hy with rfl | hy'
        · exact hlt
        · exact he y hy'
    · rw [show topStep t acc x = acc from if_neg hx] at h ⊢
      rcases ih acc h with ⟨h1, h2, h3⟩ | ⟨l1, l2, hdec, hlt, he, hl2, hsnd⟩
      · refine Or.inl ⟨h1, ?_, h3⟩
        intro y hy
        rcases List.mem_cons.mp hy with rfl | hy'
        · exact not_lt.mp hx
        · exact h2 y hy'
      · refine Or.inr ⟨x :: l1, l2, by rw [hdec]; rfl, hlt, ?_, hl2, hsnd⟩
        intro y hy
        rcases List.mem_cons.mp hy with rfl | hy'
        · exact lt_of_le_of_lt (not_lt.mp hx) hlt
        · exact he y hy'

lemma mem_categoryOrder (c : Category) : c ∈ categoryOrder := by
  cases c <;> decide

lemma categoryOrder_nodup : categoryOrder.Nodup := by decide

lemma categoryOrder_rank (c : Category) : categoryOrder[catRank c]? = some c := by
  cases c <;> rfl

lemma rank_mem_left (c x : Category) (l1 l2 : List Category)
    (hdec : categoryOrder = l1 ++ c :: l2) (hlt : catRank x < catRank c) :
    x ∈ l1 := by
  have hc : categoryOrder[l1.length]? = some c := by
    rw [hdec, List.getElem?_append_right (le_refl l1.length)]
    simp
  have hlt8 : catRank c < categoryOrder.length := by
    cases c <;> simp [categoryOrder, catRank]
  have hrank : catRank c = l1.length :=
    List.getElem?_inj hlt8 categoryOrder_nodup (by rw [categoryOrder_rank, hc])
  have hx : categoryOrder[catRank x]? = some x := categoryOrder_rank x
  rw [hdec, List.getElem?_append_left (by omega : catRank x < l1.length)] at hx
  exact List.getElem?_mem hx

lemma getTopCategory_of_none (E : List Expense)
    (h : (categoryOrder.foldl (topStep (categoryTotalsFun E))
      ((none : Option Category), (0 : ℚ))).1 = none) :
    getTopCategory E = none := by
  show (match (categoryOrder.foldl (topStep (categoryTotalsFun E))
      ((none : Option Category), (0 : ℚ))).1 with
    | some c => some (c, (categoryOrder.foldl (topStep (categoryTotalsFun E))
        ((none : Option Category), (0 : ℚ))).2)
    | none => (none : Option (Category × ℚ))) = none
  rw [h]

lemma getTopCategory_of_some (E : List Expense) (c0 : Category)
    (h : (categoryOrder.foldl (topStep (categoryTotalsFun E))
      ((none : Option Category), (0 : ℚ))).1 = some c0) :
    getTopCategory E = some (c0, (categoryOrder.foldl (topStep (categoryTotalsFun E))
      ((none : Option Category), (0 : ℚ))).2) := by
  show (match (categoryOrder.foldl (topStep (categoryTotalsFun E))
      ((none : Option Category), (0 : ℚ))).1 with
    | some c => some (c, (categoryOrder.foldl (topStep (categoryTotalsFun E))
        ((none : Option Category), (0 : ℚ))).2)
    | none => (none : Option (Category × ℚ))) = _
  rw [h]

lemma categoryTotalsFun_nonneg (E : List Expense)
    (h : ∀ e ∈ E, 0 ≤ e.amount) (c : Category) :
    0 ≤ categoryTotalsFun E c := by
  rw [categoryTotalsFun_eq]
  apply List.sum_nonneg
  intro x hx
  rcases List.mem_map.mp hx with ⟨e, he, rfl⟩
  exact h e (List.mem_of_mem_filter he)

/-- C5: `getTopCategory` returns `none` when every category total is zero
(in particular for `E = []`); when some total is nonzero (with the
record-model invariant of nonnegative amounts) it returns a pair, and any
returned pair `(c, a)` satisfies: `a` is `c`'s total, `a` is positive and
maximal among all category totals, and every category strictly earlier in
enumeration order has a strictly smaller total — so the first category to
reach the maximum wins and a later tie does not replace it. -/
theorem spec_C5_topCategory (E : List Expense)
    (h : ∀ e ∈ E, 0 ≤ e.amount) :
    ((∀ c, categoryTotalsFun E c = 0) → getTopCategory E = none) ∧
    ((∃ c, categoryTotalsFun E c ≠ 0) → ∃ p, getTopCategory E = some p) ∧
    (∀ c a, getTopCategory E = some (c, a) →
      categoryTotalsFun E c = a ∧ 0 < a ∧
      (∀ x, categoryTotalsFun E x ≤ a) ∧
      (∀ x, catRank x < catRank c → categoryTotalsFun E x < a)) := by
  refine ⟨?_, ?_, ?_⟩
  · intro hall
    apply getTopCategory_of_none
    rw [topFold_none_iff]
    exact ⟨rfl, fun c _ => le_of_eq (hall c)⟩
  · rintro ⟨c, hc⟩
    have hpos : 0 < categoryTotalsFun E c :=
      lt_of_le_of_ne (categoryTotalsFun_nonneg E h c) (Ne.symm hc)
    cases hr : (categoryOrder.foldl (topStep (categoryTotalsFun E))
        ((none : Option Category), (0 : ℚ))).1 with
    | none =>
      rw [topFold_none_iff] at hr
      exact absurd hpos (not_lt.mpr (hr.2 c (mem_categoryOrder c)))
    | some c0 =>
      exact ⟨_, getTopCategory_of_some E c0 hr⟩
  · intro c a hca
    cases hr : (categoryOrder.foldl (topStep (categoryTotalsFun E))
        ((none : Option Category), (0 : ℚ))).1 with
    | none =>
      rw [getTopCategory_of_none E hr] at hca
      exact Option.noConfusion hca
    | some c0 =>
      rw [getTopCategory_of_some E c0 hr] at hca
      have hpair := Option.some.inj hca
      have hc0 : c0 = c := congrArg Prod.fst hpair
      have ha : (categoryOrder.foldl (topStep (categoryTotalsFun E))
          ((none : Option Category), (0 : ℚ))).2 = a := congrArg Prod.snd hpair
      subst hc0
      rcases topFold_some (categoryTotalsFun E) categoryOrder _ c0 hr with
        ⟨habs, _, _⟩ | ⟨l1, l2, hdec, hlt, he, hl2, hsnd⟩
      · exact Option.noConfusion habs
      · have hta : categoryTotalsFun E c0 = a := by rw [← ha, hsnd]
        refine ⟨hta, by rw [← hta]; exact hlt, ?_, ?_⟩
        · intro x
          have hx := mem_categoryOrder x
          rw [hdec] at hx
          rcases List.mem_append.mp hx with hx1 | hx2
          · exact le_of_lt (hta ▸ he x hx1)
          · rcases List.mem_cons.mp hx2 with rfl | hx3
            · exact le_of_eq hta
            · exact hta ▸ hl2 x hx3
        · intro x hxlt
          have hx1 : x ∈ l1 := rank_mem_left c0 x l1 l2 hdec hxlt
          exact hta ▸ he x hx1

/-- C5 witness: food reaches 300 first (`ex1 + ex2`), travel ties at 300
later and does not replace it. -/
theorem spec_C5_topCategory_witness :
    ((∀ c, categoryTotalsFun [ex1, ex2, ex3] c = 0) →
      getTopCategory [ex1, ex2, ex3] = none) ∧
    ((∃ c, categoryTotalsFun [ex1, ex2, ex3] c ≠ 0) →
      ∃ p, getTopCategory [ex1, ex2, ex3] = some p) ∧
    (∀ c a, getTopCategory [ex1, ex2, ex3] = some (c, a) →
      categoryTotalsFun [ex1, ex2, ex3] c = a ∧ 0 < a ∧
      (∀ x, categoryTotalsFun [ex1, ex2, ex3] x ≤ a) ∧
      (∀ x, catRank x < catRank c → categoryTotalsFun [ex1, ex2, ex3] x < a)) :=
  spec_C5_topCategory [ex1, ex2, ex3] (by
    intro e he
    simp only [List.mem_cons, List.not_mem_nil, or_false] at he
    rcases he with rfl | rfl | rfl <;> norm_num [ex1, ex2, ex3])

end PocketInsight
